import Mathlib

/-!
Shallow embedding of the power_app torque/force solver.

Sources:
* `src/src/App.tsx` — the rich voltage/current/power/field-weakening solver
  (the `data` useMemo, lines 87–157, plus the derived electrical quantities).
* `src/src/App_old.tsx` — the simple power-only model (lines 52–72).

Machine floats are modelled as real numbers; JavaScript `Math.max`/`Math.min`
become `max`/`min` on ℝ, `Math.sqrt` becomes `Real.sqrt`, and the
`Infinity` produced for the unconstrained power limit in regenerating mode is
modelled as `Option ℝ` with `none` meaning "no bound".  Every JS value in the
embedding is finite, so the `isFinite` guard on the output reduces to its
sign test.
-/

namespace PowerApp

noncomputable section

/-- Winding topology selector, `src/src/App.tsx` line 37. -/
inductive Winding where
  | DELTA
  | WYE
deriving DecidableEq, Repr

/-- Operating direction, `src/src/App.tsx` line 32:
CONC = concentric (motoring), ECC = eccentric (regenerating). -/
inductive Mode where
  | CONC
  | ECC
deriving DecidableEq, Repr

/-- Conversion constant N → lbf, `src/src/App.tsx` line 13. -/
def LBF_PER_N : ℝ := 1 / 4.4482216152605

/-- Kt/Kv conversion constant, `src/src/App.tsx` line 14. -/
def KTKV : ℝ := 9.5492965964254

/-- The parameter snapshot feeding one evaluation of the `data` memo in
`src/src/App.tsx`.  `Kt` is the derived torque constant of line 28 (already
resolved from the KT/KV entry mode); `selected` is the list of active supply
limits in watts. -/
structure Params where
  Kt : ℝ
  Rll : ℝ
  Lll_uH : ℝ
  winding : Winding
  copperTempC : ℝ
  Vbus : ℝ
  util : ℝ
  Imax : ℝ
  idFWmax : ℝ
  gearRatio : ℝ
  gearEff : ℝ
  drumRadius : ℝ
  maxSpeed : ℝ
  steps : ℕ
  mode : Mode
  selected : List ℝ

/-- Derived torque constant from a Kv entry, `src/src/App.tsx` line 28:
`KTKV / Math.max(1e-9, KvState)`. -/
def KtFromKv (kv : ℝ) : ℝ := KTKV / max 1e-9 kv

/-- Per-phase base resistance, `src/src/App.tsx` line 66:
`winding === "WYE" ? Rll / 2 : 1.5 * Rll`. -/
def RphaseBase (p : Params) : ℝ :=
  match p.winding with
  | Winding.WYE => p.Rll / 2
  | Winding.DELTA => 1.5 * p.Rll

/-- Per-phase base inductance, `src/src/App.tsx` lines 67–70 (µH → H, then
the same topology transform as the resistance). -/
def LphaseBase (p : Params) : ℝ :=
  match p.winding with
  | Winding.WYE => p.Lll_uH * 1e-6 / 2
  | Winding.DELTA => 1.5 * (p.Lll_uH * 1e-6)

/-- Temperature-adjusted per-phase resistance, `src/src/App.tsx` lines 72–76. -/
def Rphase (p : Params) : ℝ :=
  RphaseBase p * (1 + 0.0039 * (p.copperTempC - 25))

/-- Copper-loss coefficient, `src/src/App.tsx` line 79 and
`src/src/App_old.tsx` line 48: `kcu = 3·Rphase/Kt²`. -/
def kcu (p : Params) : ℝ := 3 * Rphase p / (p.Kt * p.Kt)

/-- Maximum fundamental phase voltage, `src/src/App.tsx` line 83:
`(util * Vbus) / Math.sqrt(3)`. -/
def VphaseMax (p : Params) : ℝ := p.util * p.Vbus / Real.sqrt 3

/-- Absolute torque cap, `src/src/App.tsx` line 46: `TmMax = Kt * Imax`. -/
def TmMax (p : Params) : ℝ := p.Kt * p.Imax

/-- Output angular speed from linear speed, `src/src/App.tsx` line 93:
`v / Math.max(1e-9, drumRadius)`. -/
def omega_out (p : Params) (v : ℝ) : ℝ := v / max 1e-9 p.drumRadius

/-- Motor angular speed, `src/src/App.tsx` line 94. -/
def omega_m (p : Params) (v : ℝ) : ℝ := omega_out p v * p.gearRatio

/-- The i-th sampled output speed, `src/src/App.tsx` lines 89–92:
`step = Math.max(1, steps)`, `v = maxSpeed * i / step`. -/
def speedAt (p : Params) (i : ℕ) : ℝ :=
  p.maxSpeed * i / (max 1 p.steps : ℕ)

/-- Field-weakening d-axis sample, `src/src/App.tsx` lines 90 and 109:
`id = -idFWmax * (k / N_ID)` with `N_ID = 40`. -/
def idSample (p : Params) (k : ℕ) : ℝ := -p.idFWmax * ((k : ℝ) / 40)

/-- Current-limit bound on `|i_q|`, `src/src/App.tsx` line 112:
`Math.sqrt(Math.max(0, Imax*Imax - id*id))`. -/
def iqMaxCurrent (p : Params) (id : ℝ) : ℝ :=
  Real.sqrt (max 0 (p.Imax * p.Imax - id * id))

/-- Voltage quadratic leading coefficient, `src/src/App.tsx` line 102:
`A = R*R + (omega_m*L)*(omega_m*L)`. -/
def Acoef (p : Params) (w : ℝ) : ℝ :=
  Rphase p * Rphase p + (w * LphaseBase p) * (w * LphaseBase p)

/-- Voltage quadratic linear coefficient magnitude, `src/src/App.tsx`
line 103: `Babs = 2*R*omega_m*Ke` with `Ke = Kt`. -/
def Babs (p : Params) (w : ℝ) : ℝ := 2 * Rphase p * w * p.Kt

/-- Voltage quadratic constant term, `src/src/App.tsx` line 115:
`C = (R*id)^2 + (omega_m*(L*id + Ke))^2 - Vmax^2`. -/
def Ccoef (p : Params) (w id : ℝ) : ℝ :=
  (Rphase p * id) * (Rphase p * id)
    + (w * (LphaseBase p * id + p.Kt)) ^ 2
    - VphaseMax p * VphaseMax p

/-- Voltage quadratic discriminant, `src/src/App.tsx` line 116. -/
def voltDisc (p : Params) (w id : ℝ) : ℝ :=
  Babs p w * Babs p w - 4 * Acoef p w * Ccoef p w id

/-- Motoring-side voltage bound, `src/src/App.tsx` lines 117–125: zero when
the discriminant is negative, else `max(0, (-Babs + √disc)/(2A))`. -/
def iqMaxVoltConc (p : Params) (w id : ℝ) : ℝ :=
  if 0 ≤ voltDisc p w id then
    max 0 ((-Babs p w + Real.sqrt (voltDisc p w id)) / (2 * Acoef p w))
  else 0

/-- Regenerating-side voltage bound, `src/src/App.tsx` lines 117–125: zero
when the discriminant is negative, else `max(0, (Babs + √disc)/(2A))`. -/
def iqMaxVoltEcc (p : Params) (w id : ℝ) : ℝ :=
  if 0 ≤ voltDisc p w id then
    max 0 ((Babs p w + Real.sqrt (voltDisc p w id)) / (2 * Acoef p w))
  else 0

/-- Mode-selected voltage bound, `src/src/App.tsx` line 126. -/
def iqMaxVolt (p : Params) (w id : ℝ) : ℝ :=
  match p.mode with
  | Mode.CONC => iqMaxVoltConc p w id
  | Mode.ECC => iqMaxVoltEcc p w id

/-- Power-limit bound on `i_q`, `src/src/App.tsx` lines 128–140.  In
regenerating mode the code leaves `iqMaxPower = Infinity`, modelled as
`none`; in motoring mode it solves `3R·iq² + Kt·ω·iq + (3R·id² − Pin) ≤ 0`
and returns `max(0, (−b+√D)/(2a))` when the discriminant is non-negative,
else `0`. -/
def iqMaxPower (p : Params) (w id Pin : ℝ) : Option ℝ :=
  match p.mode with
  | Mode.ECC => none
  | Mode.CONC =>
    let aP := 3 * Rphase p
    let bP := p.Kt * w
    let cP := 3 * Rphase p * id * id - Pin
    let Dp := bP * bP - 4 * aP * cP
    if 0 ≤ Dp then some (max 0 ((-bP + Real.sqrt Dp) / (2 * aP)))
    else some 0

/-- Combined admissible `i_q`, `src/src/App.tsx` line 142:
`Math.min(iqMaxCurrent, iqMaxVolt, iqMaxPower)`; a `none` power bound is
`Infinity` and drops out of the minimum. -/
def iqMaxAt (p : Params) (w id Pin : ℝ) : ℝ :=
  match iqMaxPower p w id Pin with
  | none => min (iqMaxCurrent p id) (iqMaxVolt p w id)
  | some q => min (min (iqMaxCurrent p id) (iqMaxVolt p w id)) q

/-- Torque at one field-weakening sample, `src/src/App.tsx` line 143. -/
def TmAt (p : Params) (w id Pin : ℝ) : ℝ := p.Kt * iqMaxAt p w id Pin

/-- Best torque over the 41-point field-weakening grid,
`src/src/App.tsx` lines 106–145: `bestTm` starts at `0` and keeps the
maximum `Tm` seen. -/
def bestTm (p : Params) (w Pin : ℝ) : ℝ :=
  ((List.range 41).map (fun k => TmAt p w (idSample p k) Pin)).foldl max 0

/-- Final motor torque after the redundant torque-cap clamp,
`src/src/App.tsx` line 148: `Math.min(bestTm, TmMax)`. -/
def TmFinal (p : Params) (w Pin : ℝ) : ℝ := min (bestTm p w Pin) (TmMax p)

/-- Output torque, `src/src/App.tsx` line 149. -/
def Tout (p : Params) (w Pin : ℝ) : ℝ := TmFinal p w Pin * p.gearRatio * p.gearEff

/-- Output force in newtons, `src/src/App.tsx` line 150. -/
def forceN (p : Params) (w Pin : ℝ) : ℝ := Tout p w Pin / max 1e-9 p.drumRadius

/-- Output force in lbf before sanitization, `src/src/App.tsx` line 151. -/
def lbfValue (p : Params) (v Pin : ℝ) : ℝ :=
  forceN p (omega_m p v) Pin * LBF_PER_N

/-- Sanitized row value, `src/src/App.tsx` line 152:
`isFinite(lbf) && lbf > 0 ? lbf : 0`; reals are always finite. -/
def rowValue (p : Params) (v Pin : ℝ) : ℝ :=
  if 0 < lbfValue p v Pin then lbfValue p v Pin else 0

/-- One output row: the sample speed together with the force value for each
selected supply limit, `src/src/App.tsx` lines 95–154. -/
def dataRow (p : Params) (i : ℕ) : ℝ × List ℝ :=
  (speedAt p i, p.selected.map (fun Pin => rowValue p (speedAt p i) Pin))

/-- The full output table, `src/src/App.tsx` lines 87–156: rows for
`i = 0 .. Math.max(1, steps)` inclusive. -/
def dataRows (p : Params) : List (ℝ × List ℝ) :=
  (List.range (max 1 p.steps + 1)).map (fun i => dataRow p i)

/-- Simple power-only motor torque of the old model,
`src/src/App_old.tsx` lines 61–63: the positive root of
`kcu·T² + ω·T − Pin = 0`, computed as `(√(ω² + 4·kcu·Pin) − ω)/(2·kcu)`. -/
def simpleTm (p : Params) (w Pin : ℝ) : ℝ :=
  (Real.sqrt (w * w + 4 * kcu p * Pin) - w) / (2 * kcu p)

/-- The default parameter snapshot of the app (`useState` initial values in
`src/src/App.tsx`), used as a concrete evaluation point. -/
def defaultParams : Params where
  Kt := 0.272
  Rll := 0.164
  Lll_uH := 235
  winding := Winding.DELTA
  copperTempC := 25
  Vbus := 48
  util := 0.95
  Imax := 72
  idFWmax := 0
  gearRatio := 10
  gearEff := 0.9
  drumRadius := 0.05
  maxSpeed := 3
  steps := 60
  mode := Mode.CONC
  selected := [3000]

end

/-! ## Helper lemmas shared across the development -/

lemma iqMaxVoltConc_nonneg (p : Params) (w id : ℝ) : 0 ≤ iqMaxVoltConc p w id := by
  unfold iqMaxVoltConc
  split
  · exact le_max_left 0 _
  · exact le_refl 0

lemma iqMaxVoltEcc_nonneg (p : Params) (w id : ℝ) : 0 ≤ iqMaxVoltEcc p w id := by
  unfold iqMaxVoltEcc
  split
  · exact le_max_left 0 _
  · exact le_refl 0

lemma iqMaxVolt_nonneg (p : Params) (w id : ℝ) : 0 ≤ iqMaxVolt p w id := by
  unfold iqMaxVolt
  cases p.mode
  · exact iqMaxVoltConc_nonneg p w id
  · exact iqMaxVoltEcc_nonneg p w id

lemma iqMaxCurrent_nonneg (p : Params) (id : ℝ) : 0 ≤ iqMaxCurrent p id :=
  Real.sqrt_nonneg _

lemma iqMaxPower_some_nonneg (p : Params) (w id Pin q : ℝ)
    (h : iqMaxPower p w id Pin = some q) : 0 ≤ q := by
  unfold iqMaxPower at h
  cases h2 : p.mode
  · simp only [h2] at h
    split at h
    · simp only [Option.some.injEq] at h
      exact h ▸ le_max_left 0 _
    · simp only [Option.some.injEq] at h
      exact h ▸ le_refl 0
  · simp [h2] at h

lemma iqMaxAt_nonneg (p : Params) (w id Pin : ℝ) : 0 ≤ iqMaxAt p w id Pin := by
  unfold iqMaxAt
  cases h : iqMaxPower p w id Pin
  · exact le_min (iqMaxCurrent_nonneg p id) (iqMaxVolt_nonneg p w id)
  · exact le_min (le_min (iqMaxCurrent_nonneg p id) (iqMaxVolt_nonneg p w id))
      (iqMaxPower_some_nonneg p w id Pin _ h)

lemma iqMaxAt_le_iqMaxCurrent (p : Params) (w id Pin : ℝ) :
    iqMaxAt p w id Pin ≤ iqMaxCurrent p id := by
  unfold iqMaxAt
  cases iqMaxPower p w id Pin
  · exact min_le_left _ _
  · exact le_trans (min_le_left _ _) (min_le_left _ _)

lemma iqMaxCurrent_le_Imax (p : Params) (id : ℝ) (hI : 0 ≤ p.Imax) :
    iqMaxCurrent p id ≤ p.Imax := by
  unfold iqMaxCurrent
  calc Real.sqrt (max 0 (p.Imax * p.Imax - id * id))
      ≤ Real.sqrt (p.Imax * p.Imax) :=
        Real.sqrt_le_sqrt (max_le (mul_self_nonneg _) (sub_le_self _ (mul_self_nonneg _)))
    _ = p.Imax := Real.sqrt_mul_self hI

lemma foldl_max_replicate (n : ℕ) (a c : ℝ) :
    (List.replicate (n + 1) c).foldl max a = max a c := by
  induction n generalizing a with
  | zero => simp
  | succ n ih =>
    rw [List.replicate_succ, List.foldl_cons, ih]
    rw [max_assoc, max_self]

/-! ## Claims -/

/-- Claim C3 (counterexample): at `Rll = 1`, the WYE per-phase resistance is
`0.5` while half the DELTA per-phase resistance is `0.75`, so "WYE equals
half of DELTA" is false on the code. -/
theorem claim_C3_counterexample :
    RphaseBase { defaultParams with Rll := 1, winding := Winding.WYE }
      ≠ RphaseBase { defaultParams with Rll := 1, winding := Winding.DELTA } / 2 := by
  norm_num [RphaseBase]

/-- Claim C3 (amended): for identical line-to-line resistance, the WYE
per-phase resistance equals exactly one third of the DELTA per-phase
resistance (`Rll/2 = (1.5·Rll)/3`). -/
theorem claim_C3 (p q : Params) (hRll : p.Rll = q.Rll)
    (hp : p.winding = Winding.WYE) (hq : q.winding = Winding.DELTA) :
    RphaseBase p = RphaseBase q / 3 := by
  unfold RphaseBase
  rw [hp, hq, hRll]
  show q.Rll / 2 = 1.5 * q.Rll / 3
  ring

/-- Witness for the amended claim C3 at `Rll = 1`. -/
theorem claim_C3_witness :
    RphaseBase { defaultParams with Rll := 1, winding := Winding.WYE }
      = RphaseBase { defaultParams with Rll := 1, winding := Winding.DELTA } / 3 :=
  claim_C3 _ _ rfl rfl rfl

/-- Claim C7: every force value placed in the output rows is non-negative
(and, the embedding being real-valued, finite): the sanitization
`isFinite(lbf) && lbf > 0 ? lbf : 0` floors negative or non-finite
intermediate results to `0` before they are stored. -/
theorem claim_C7 (p : Params) :
    ∀ r ∈ dataRows p, ∀ x ∈ r.2, 0 ≤ x := by
  intro r hr x hx
  unfold dataRows at hr
  obtain ⟨i, _, rfl⟩ := List.mem_map.mp hr
  unfold dataRow at hx
  obtain ⟨Pin, _, rfl⟩ := List.mem_map.mp hx
  unfold rowValue
  split
  · next h => exact h.le
  · exact le_refl 0

/-- Witness for claim C7: the first row's only force value at the default
parameters is non-negative. -/
theorem claim_C7_witness :
    0 ≤ rowValue defaultParams (speedAt defaultParams 0) 3000 :=
  claim_C7 defaultParams (dataRow defaultParams 0)
    (by unfold dataRows; exact List.mem_map_of_mem _ (List.mem_range.mpr (by norm_num)))
    _ (by unfold dataRow; exact List.mem_map_of_mem _ (by simp [defaultParams]))

/-- Claim C8: with `steps ∈ [10, 500]` and `maxSpeed ≥ 0`, the output has
exactly `steps + 1` rows, the i-th row's speed is `maxSpeed·i/steps`, the
speeds start at `0`, end at `maxSpeed`, advance in equal increments of
`maxSpeed/steps`, and are non-decreasing. -/
theorem claim_C8 (p : Params) (h1 : 10 ≤ p.steps) (h2 : p.steps ≤ 500)
    (h3 : 0 ≤ p.maxSpeed) :
    (dataRows p).length = p.steps + 1 ∧
    (∀ (i : ℕ) (hi : i < (dataRows p).length), ((dataRows p).get ⟨i, hi⟩).1 = speedAt p i) ∧
    speedAt p 0 = 0 ∧
    speedAt p p.steps = p.maxSpeed ∧
    (∀ i : ℕ, i < p.steps → speedAt p (i + 1) = speedAt p i + p.maxSpeed / p.steps) ∧
    (∀ i j : ℕ, i ≤ j → speedAt p i ≤ speedAt p j) := by
  have hmax : max 1 p.steps = p.steps := max_eq_right (by omega)
  have hpos : (0 : ℝ) < (p.steps : ℝ) := by exact_mod_cast (by omega : 0 < p.steps)
  have hne : ((p.steps : ℝ)) ≠ 0 := ne_of_gt hpos
  refine ⟨?_, ?_, ?_, ?_, ?_, ?_⟩
  · simp [dataRows, hmax]
  · intro i hi
    simp [dataRows, dataRow]
  · simp [speedAt]
  · unfold speedAt
    rw [hmax]
    field_simp
  · intro i _
    unfold speedAt
    rw [hmax]
    push_cast
    field_simp
    ring
  · intro i j hij
    unfold speedAt
    rw [hmax]
    apply (div_le_div_iff_of_pos_right hpos).mpr
    have hcast : (i : ℝ) ≤ (j : ℝ) := by exact_mod_cast hij
    exact mul_le_mul_of_nonneg_left hcast h3

/-- Witness for claim C8 at the default parameters (`steps = 60`,
`maxSpeed = 3`). -/
theorem claim_C8_witness :
    (dataRows defaultParams).length = defaultParams.steps + 1 ∧
    (∀ (i : ℕ) (hi : i < (dataRows defaultParams).length),
      ((dataRows defaultParams).get ⟨i, hi⟩).1 = speedAt defaultParams i) ∧
    speedAt defaultParams 0 = 0 ∧
    speedAt defaultParams defaultParams.steps = defaultParams.maxSpeed ∧
    (∀ i : ℕ, i < defaultParams.steps →
      speedAt defaultParams (i + 1)
        = speedAt defaultParams i + defaultParams.maxSpeed / defaultParams.steps) ∧
    (∀ i j : ℕ, i ≤ j → speedAt defaultParams i ≤ speedAt defaultParams j) :=
  claim_C8 defaultParams (by norm_num [defaultParams]) (by norm_num [defaultParams])
    (by norm_num [defaultParams])

/-- Claim C6: with `Imax ≥ 0` and `Kt ≥ 0`, at every motor speed, d-axis
sample and supply limit the selected q-axis current magnitude is at most
`Imax`, and the final motor torque is at most `Kt·Imax`. -/
theorem claim_C6 (p : Params) (w id Pin : ℝ) (hI : 0 ≤ p.Imax) (_hK : 0 ≤ p.Kt) :
    |iqMaxAt p w id Pin| ≤ p.Imax ∧ TmFinal p w Pin ≤ p.Kt * p.Imax := by
  constructor
  · rw [abs_of_nonneg (iqMaxAt_nonneg p w id Pin)]
    exact (iqMaxAt_le_iqMaxCurrent p w id Pin).trans (iqMaxCurrent_le_Imax p id hI)
  · unfold TmFinal TmMax
    exact min_le_right _ _

/-- Witness for claim C6 at the default parameters. -/
theorem claim_C6_witness :
    |iqMaxAt defaultParams 50 0 3000| ≤ defaultParams.Imax ∧
    TmFinal defaultParams 50 3000 ≤ defaultParams.Kt * defaultParams.Imax :=
  claim_C6 defaultParams 50 0 3000 (by norm_num [defaultParams]) (by norm_num [defaultParams])

/-- Claim C4: in regenerating (ECC) mode the computed force value at any
speed is identical for any two supply limits — the power cap never enters
the eccentric computation. -/
theorem claim_C4 (p : Params) (hm : p.mode = Mode.ECC) (v P1 P2 : ℝ) :
    rowValue p v P1 = rowValue p v P2 := by
  have h : (fun k => TmAt p (omega_m p v) (idSample p k) P1)
      = (fun k => TmAt p (omega_m p v) (idSample p k) P2) := by
    funext k
    unfold TmAt iqMaxAt iqMaxPower
    rw [hm]
  unfold rowValue lbfValue forceN Tout TmFinal bestTm
  rw [h]

/-- Witness for claim C4: at the default parameters switched to ECC mode,
the 450 W and 3000 W curves agree at speed 1. -/
theorem claim_C4_witness :
    rowValue { defaultParams with mode := Mode.ECC } 1 450
      = rowValue { defaultParams with mode := Mode.ECC } 1 3000 :=
  claim_C4 { defaultParams with mode := Mode.ECC } rfl 1 450 3000

/-- The power-limit bound exactly as the claim states it: with `b = Kt·ω`
and `disc = b² − 4·(3R)·(3R·i_d² − P)`, the admissible current is
`max(0, (−b + √disc)/(2·3R))` when `disc ≥ 0` and `0` otherwise. -/
noncomputable def iqMaxPowerSpec (p : Params) (w id Pin : ℝ) : ℝ :=
  let b := p.Kt * w
  let disc := b ^ 2 - 4 * (3 * Rphase p) * (3 * Rphase p * id ^ 2 - Pin)
  if 0 ≤ disc then max 0 ((-b + Real.sqrt disc) / (2 * (3 * Rphase p))) else 0

/-- Claim C9: in motoring mode the code's power-limit bound equals the
claimed closed form, and in regenerating mode the power limit imposes no
bound at all. -/
theorem claim_C9 (p : Params) (w id Pin : ℝ) :
    (p.mode = Mode.CONC → iqMaxPower p w id Pin = some (iqMaxPowerSpec p w id Pin)) ∧
    (p.mode = Mode.ECC → iqMaxPower p w id Pin = none) := by
  constructor
  · intro h
    simp only [iqMaxPower, iqMaxPowerSpec, h]
    rw [show p.Kt * w * (p.Kt * w) - 4 * (3 * Rphase p) * (3 * Rphase p * id * id - Pin)
        = (p.Kt * w) ^ 2 - 4 * (3 * Rphase p) * (3 * Rphase p * id ^ 2 - Pin) from by ring]
    rw [apply_ite Option.some]
  · intro h
    simp [iqMaxPower, h]

/-- Witness for claim C9: both halves evaluated at concrete parameters. -/
theorem claim_C9_witness :
    iqMaxPower defaultParams 50 0 3000 = some (iqMaxPowerSpec defaultParams 50 0 3000) ∧
    iqMaxPower { defaultParams with mode := Mode.ECC } 50 0 3000 = none :=
  ⟨(claim_C9 defaultParams 50 0 3000).1 rfl,
    (claim_C9 { defaultParams with mode := Mode.ECC } 50 0 3000).2 rfl⟩

/-- Claim C10: with non-negative phase resistance, speed and torque
constant, whenever the voltage discriminant is non-negative the eccentric
voltage-limited current magnitude `(Babs + √disc)/(2A)` is at least the
concentric one `(−Babs + √disc)/(2A)`. -/
theorem claim_C10 (p : Params) (w id : ℝ) (hR : 0 ≤ Rphase p) (hw : 0 ≤ w)
    (hK : 0 ≤ p.Kt) (hd : 0 ≤ voltDisc p w id) :
    iqMaxVoltConc p w id ≤ iqMaxVoltEcc p w id := by
  have hB : 0 ≤ Babs p w := by
    unfold Babs
    exact mul_nonneg (mul_nonneg (by linarith) hw) hK
  have hA : 0 ≤ Acoef p w := by
    unfold Acoef
    exact add_nonneg (mul_self_nonneg _) (mul_self_nonneg _)
  unfold iqMaxVoltConc iqMaxVoltEcc
  rw [if_pos hd, if_pos hd]
  apply max_le_max le_rfl
  rcases hA.eq_or_lt with h0 | h0
  · rw [← h0]
    norm_num
  · apply (div_le_div_iff_of_pos_right (by linarith)).mpr
    linarith

/-- Witness for claim C10 at zero speed and zero supply utilization, where
the discriminant is exactly `0`. -/
theorem claim_C10_witness :
    iqMaxVoltConc { defaultParams with util := 0 } 0 0
      ≤ iqMaxVoltEcc { defaultParams with util := 0 } 0 0 :=
  claim_C10 { defaultParams with util := 0 } 0 0
    (by norm_num [Rphase, RphaseBase, defaultParams])
    le_rfl
    (by norm_num [defaultParams])
    (by simp [voltDisc, Babs, Acoef, Ccoef, VphaseMax, defaultParams])

/-- Concrete snapshot exercising a negative voltage discriminant:
`Kt = 1`, per-phase `R = 1` and `L = 1` (via `Rll = 2/3`,
`Lll = 2·10⁶/3 µH`, DELTA), `util = 0` (so `Vmax = 0`), `Imax = 10`,
no field weakening, motoring mode. -/
noncomputable def pC1 : Params :=
  { defaultParams with
    Kt := 1, Rll := 2 / 3, Lll_uH := 2000000 / 3, util := 0,
    Imax := 10, mode := Mode.CONC }

lemma Rphase_pC1 : Rphase pC1 = 1 := by
  norm_num [Rphase, RphaseBase, pC1, defaultParams]

lemma LphaseBase_pC1 : LphaseBase pC1 = 1 := by
  norm_num [LphaseBase, pC1, defaultParams]

lemma VphaseMax_pC1 : VphaseMax pC1 = 0 := by
  simp [VphaseMax, pC1, defaultParams]

lemma voltDisc_pC1 : voltDisc pC1 1 0 = -4 := by
  unfold voltDisc Babs Acoef Ccoef
  rw [Rphase_pC1, LphaseBase_pC1, VphaseMax_pC1]
  norm_num [pC1, defaultParams]

/-- Spelled-out motoring branch of the power limit, used to evaluate the
solver at concrete inputs. -/
lemma iqMaxPower_conc (p : Params) (h : p.mode = Mode.CONC) (w id Pin : ℝ) :
    iqMaxPower p w id Pin =
      if 0 ≤ p.Kt * w * (p.Kt * w) - 4 * (3 * Rphase p) * (3 * Rphase p * id * id - Pin)
      then some (max 0 ((-(p.Kt * w)
        + Real.sqrt (p.Kt * w * (p.Kt * w)
            - 4 * (3 * Rphase p) * (3 * Rphase p * id * id - Pin))) / (2 * (3 * Rphase p))))
      else some 0 := by
  unfold iqMaxPower
  rw [h]

lemma iqMaxVolt_conc (p : Params) (h : p.mode = Mode.CONC) (w id : ℝ) :
    iqMaxVolt p w id = iqMaxVoltConc p w id := by
  unfold iqMaxVolt
  rw [h]

lemma sqrt_twentyfive : Real.sqrt 25 = 5 := by
  rw [show (25 : ℝ) = 5 ^ 2 by norm_num]
  exact Real.sqrt_sq (by norm_num)

lemma iqMaxPower_pC1 : iqMaxPower pC1 1 0 2 = some (2 / 3) := by
  rw [iqMaxPower_conc pC1 rfl 1 0 2]
  rw [show pC1.Kt * 1 * (pC1.Kt * 1) - 4 * (3 * Rphase pC1) * (3 * Rphase pC1 * 0 * 0 - 2)
      = (25 : ℝ) from by rw [Rphase_pC1]; norm_num [pC1, defaultParams]]
  rw [if_pos (by norm_num : (0 : ℝ) ≤ 25), sqrt_twentyfive, Rphase_pC1]
  norm_num [pC1, defaultParams]

lemma iqMaxVolt_pC1 : iqMaxVolt pC1 1 0 = 0 := by
  rw [iqMaxVolt_conc pC1 rfl 1 0]
  unfold iqMaxVoltConc
  rw [if_neg (by rw [voltDisc_pC1]; norm_num)]

/-- Claim C1 (counterexample): at `pC1`, speed `ω_m = 1`, sample `i_d = 0`,
supply `2 W`, the voltage discriminant is negative, the code passes `0`
(not infinity) into the `min` as the voltage bound, and the combined
admissible current collapses to `0` although the current limit (`10`) and
the power limit (`2/3`) are both strictly positive — the negative voltage
discriminant by itself suppresses torque, refuting the claim. -/
theorem claim_C1_counterexample :
    voltDisc pC1 1 0 < 0 ∧
    iqMaxVolt pC1 1 0 = 0 ∧
    0 < iqMaxCurrent pC1 0 ∧
    iqMaxPower pC1 1 0 2 = some (2 / 3) ∧
    iqMaxAt pC1 1 0 2 = 0 := by
  refine ⟨by rw [voltDisc_pC1]; norm_num, iqMaxVolt_pC1, ?_, iqMaxPower_pC1, ?_⟩
  · unfold iqMaxCurrent
    exact Real.sqrt_pos.mpr (lt_max_iff.mpr (Or.inr (by norm_num [pC1, defaultParams])))
  · unfold iqMaxAt
    rw [iqMaxPower_pC1]
    show min (min (iqMaxCurrent pC1 0) (iqMaxVolt pC1 1 0)) (2 / 3) = 0
    rw [iqMaxVolt_pC1, min_eq_right (iqMaxCurrent_nonneg pC1 0)]
    exact min_eq_left (by norm_num)

/-- Claim C1 (amended): when the voltage-constraint discriminant is
negative at an `i_d` sample, the admissible `i_q` from the voltage
constraint is `0` (infeasible) in both modes — the same treatment as the
power constraint — so a negative voltage discriminant does suppress torque
at that sample. -/
theorem claim_C1 (p : Params) (w id : ℝ) (hd : voltDisc p w id < 0) :
    iqMaxVolt p w id = 0 := by
  unfold iqMaxVolt
  cases hm : p.mode
  · unfold iqMaxVoltConc
    rw [if_neg (not_le.mpr hd)]
  · unfold iqMaxVoltEcc
    rw [if_neg (not_le.mpr hd)]

/-- Witness for the amended claim C1 at the concrete snapshot `pC1`. -/
theorem claim_C1_witness : iqMaxVolt pC1 1 0 = 0 :=
  claim_C1 pC1 1 0 (by rw [voltDisc_pC1]; norm_num)

/-- Concrete snapshot with zero winding resistance. -/
noncomputable def pC5 : Params := { defaultParams with Rll := 0 }

lemma Rphase_pC5 : Rphase pC5 = 0 := by
  norm_num [Rphase, RphaseBase, pC5, defaultParams]

lemma Acoef_pC5 : Acoef pC5 0 = 0 := by
  unfold Acoef
  rw [Rphase_pC5]
  norm_num

/-- Claim C5 (counterexample): at `Rll = 0` and `ω_m = 0` the voltage
quadratic's leading coefficient is exactly `0`, its discriminant is
non-negative (so the root formula — with divisor `2·A` — is actually
evaluated), and the divisor `2·A` is not bounded below by `1e-9`: the `A`
denominator is not clamped. -/
theorem claim_C5_counterexample :
    0 ≤ voltDisc pC5 0 0 ∧ 2 * Acoef pC5 0 = 0 ∧ ¬ ((1e-9 : ℝ) ≤ 2 * Acoef pC5 0) := by
  have hB : Babs pC5 0 = 0 := by simp [Babs]
  refine ⟨?_, ?_, ?_⟩
  · unfold voltDisc
    rw [hB, Acoef_pC5]
    simp
  · rw [Acoef_pC5]
    norm_num
  · rw [Acoef_pC5]
    norm_num

/-- Claim C5 (amended): the divisions by the drum radius and by the
speed-constant entry are clamped through `max(1e-9, ·)` — so they never
divide by anything smaller than `1e-9` — but the voltage quadratic's `A`
coefficient carries no such clamp and can be exactly `0` for finite
inputs. -/
theorem claim_C5 (p : Params) (v kv : ℝ) (hr : p.drumRadius ≤ 0) (hk : kv ≤ 0) :
    omega_out p v = v / 1e-9 ∧ KtFromKv kv = KTKV / 1e-9 ∧ 2 * Acoef pC5 0 = 0 := by
  refine ⟨?_, ?_, ?_⟩
  · unfold omega_out
    rw [max_eq_left (hr.trans (by norm_num))]
  · unfold KtFromKv
    rw [max_eq_left (hk.trans (by norm_num))]
  · rw [Acoef_pC5]
    norm_num

/-- Witness for the amended claim C5 with a zero drum radius and a zero
speed-constant entry. -/
theorem claim_C5_witness :
    omega_out { defaultParams with drumRadius := 0 } 1 = 1 / 1e-9 ∧
    KtFromKv 0 = KTKV / 1e-9 ∧ 2 * Acoef pC5 0 = 0 :=
  claim_C5 { defaultParams with drumRadius := 0 } 1 0
    (by norm_num [defaultParams]) le_rfl

/-- The positive root of the motoring power quadratic at `i_d = 0`:
`(−Kt·ω + √((Kt·ω)² + 12·R·P)) / (6·R)`, as produced by
`src/src/App.tsx` lines 131–136 with `id = 0`. -/
noncomputable def powerRoot (p : Params) (w Pin : ℝ) : ℝ :=
  (-(p.Kt * w) + Real.sqrt (p.Kt * w * (p.Kt * w) + 12 * Rphase p * Pin)) / (6 * Rphase p)

lemma powerRoot_nonneg (p : Params) (w Pin : ℝ) (hR : 0 < Rphase p)
    (hK : 0 ≤ p.Kt) (hw : 0 ≤ w) (hP : 0 ≤ Pin) : 0 ≤ powerRoot p w Pin := by
  unfold powerRoot
  apply div_nonneg _ (by linarith)
  have hb : 0 ≤ p.Kt * w := mul_nonneg hK hw
  have hle : p.Kt * w ≤ Real.sqrt (p.Kt * w * (p.Kt * w) + 12 * Rphase p * Pin) :=
    Real.le_sqrt_of_sq_le (by nlinarith [mul_nonneg hR.le hP])
  linarith

lemma powerRoot_quadratic (p : Params) (w Pin : ℝ) (hR : 0 < Rphase p)
    (hP : 0 ≤ Pin) :
    3 * Rphase p * powerRoot p w Pin ^ 2 + (p.Kt * w) * powerRoot p w Pin = Pin := by
  have hrad : 0 ≤ p.Kt * w * (p.Kt * w) + 12 * Rphase p * Pin := by
    nlinarith [mul_self_nonneg (p.Kt * w), mul_nonneg hR.le hP]
  have hRne : Rphase p ≠ 0 := ne_of_gt hR
  unfold powerRoot
  set S := Real.sqrt (p.Kt * w * (p.Kt * w) + 12 * Rphase p * Pin) with hSdef
  have hS2 : S ^ 2 = p.Kt * w * (p.Kt * w) + 12 * Rphase p * Pin := Real.sq_sqrt hrad
  calc 3 * Rphase p * ((-(p.Kt * w) + S) / (6 * Rphase p)) ^ 2
        + (p.Kt * w) * ((-(p.Kt * w) + S) / (6 * Rphase p))
      = (S ^ 2 - p.Kt * w * (p.Kt * w)) / (12 * Rphase p) := by
        field_simp
        ring
    _ = Pin := by
        rw [hS2]
        field_simp

lemma pos_root_unique (c b P x y : ℝ) (hc : 0 < c) (hb : 0 ≤ b) (hx : 0 ≤ x)
    (hy : 0 ≤ y) (hqx : c * x ^ 2 + b * x = P) (hqy : c * y ^ 2 + b * y = P) :
    x = y := by
  have hfac : (x - y) * (c * (x + y) + b) = 0 := by
    linear_combination hqx - hqy
  rcases mul_eq_zero.mp hfac with h | h
  · exact sub_eq_zero.mp h
  · have h1 : 0 ≤ c * (x + y) := mul_nonneg hc.le (by linarith)
    have h4 : c * (x + y) = 0 := le_antisymm (by linarith) h1
    rcases mul_eq_zero.mp h4 with hk0 | hts
    · exact absurd hk0 (ne_of_gt hc)
    · linarith

lemma quad_simple_root (c w Pin : ℝ) (hc : 0 < c) (hP : 0 ≤ Pin) :
    c * ((Real.sqrt (w * w + 4 * c * Pin) - w) / (2 * c)) ^ 2
      + w * ((Real.sqrt (w * w + 4 * c * Pin) - w) / (2 * c)) = Pin := by
  have hrad : 0 ≤ w * w + 4 * c * Pin := by
    nlinarith [mul_self_nonneg w, mul_nonneg hc.le hP]
  have hcne : c ≠ 0 := ne_of_gt hc
  set S := Real.sqrt (w * w + 4 * c * Pin) with hSdef
  have hS2 : S ^ 2 = w * w + 4 * c * Pin := Real.sq_sqrt hrad
  calc c * ((S - w) / (2 * c)) ^ 2 + w * ((S - w) / (2 * c))
      = (S ^ 2 - w * w) / (4 * c) := by
        field_simp
        ring
    _ = Pin := by
        rw [hS2]
        field_simp

/-- Claim C2: with the voltage and current limits slack (`Imax` at least the
power root, `Vmax` large enough that the voltage quadratic admits it) and no
field weakening, in motoring mode the rich solver's torque satisfies the
simple model's power equation `kcu·τ² + ω·τ = P` and coincides exactly with
the old model's closed-form torque `(√(ω² + 4·kcu·P) − ω)/(2·kcu)`. -/
theorem claim_C2 (p : Params) (w Pin : ℝ)
    (hmode : p.mode = Mode.CONC) (hfw : p.idFWmax = 0)
    (hR : 0 < Rphase p) (hK : 0 < p.Kt) (hw : 0 ≤ w) (hP : 0 < Pin)
    (hI : powerRoot p w Pin ≤ p.Imax)
    (hV : (w * p.Kt) ^ 2 + Acoef p w * powerRoot p w Pin ^ 2
        + Babs p w * powerRoot p w Pin ≤ VphaseMax p ^ 2) :
    kcu p * TmFinal p w Pin ^ 2 + w * TmFinal p w Pin = Pin ∧
    TmFinal p w Pin = simpleTm p w Pin := by
  set t := powerRoot p w Pin with ht
  have ht0 : 0 ≤ t := powerRoot_nonneg p w Pin hR hK.le hw hP.le
  have hI0 : 0 ≤ p.Imax := ht0.trans hI
  have hcur : iqMaxCurrent p 0 = p.Imax := by
    unfold iqMaxCurrent
    rw [show p.Imax * p.Imax - (0 : ℝ) * 0 = p.Imax * p.Imax by ring]
    rw [max_eq_right (mul_self_nonneg _)]
    exact Real.sqrt_mul_self hI0
  have hpow : iqMaxPower p w 0 Pin = some t := by
    have ht0R : 0 ≤ (-(p.Kt * w) + Real.sqrt (p.Kt * w * (p.Kt * w)
        + 12 * Rphase p * Pin)) / (6 * Rphase p) := by
      have hcopy := ht0
      rw [ht] at hcopy
      unfold powerRoot at hcopy
      exact hcopy
    rw [iqMaxPower_conc p hmode w 0 Pin]
    rw [show p.Kt * w * (p.Kt * w) - 4 * (3 * Rphase p) * (3 * Rphase p * 0 * 0 - Pin)
        = p.Kt * w * (p.Kt * w) + 12 * Rphase p * Pin from by ring]
    rw [if_pos (by nlinarith [mul_self_nonneg (p.Kt * w), mul_nonneg hR.le hP.le])]
    rw [show (2 : ℝ) * (3 * Rphase p) = 6 * Rphase p from by ring]
    rw [max_eq_right ht0R, ht]
    unfold powerRoot
    exact rfl
  have hA : 0 < Acoef p w := by
    unfold Acoef
    nlinarith [mul_self_nonneg (w * LphaseBase p), mul_pos hR hR]
  have hB : 0 ≤ Babs p w := by
    unfold Babs
    exact mul_nonneg (mul_nonneg (by linarith) hw) hK.le
  have hC0 : Ccoef p w 0 = (w * p.Kt) ^ 2 - VphaseMax p ^ 2 := by
    unfold Ccoef
    ring
  have hCle : Acoef p w * t ^ 2 + Babs p w * t ≤ -Ccoef p w 0 := by
    rw [hC0]
    linarith
  have hAt2 : 0 ≤ Acoef p w * t ^ 2 + Babs p w * t := by
    have h1 : 0 ≤ Acoef p w * t ^ 2 := mul_nonneg hA.le (sq_nonneg t)
    have h2 : 0 ≤ Babs p w * t := mul_nonneg hB ht0
    linarith
  have hdisc : 0 ≤ voltDisc p w 0 := by
    unfold voltDisc
    nlinarith [mul_self_nonneg (Babs p w),
      mul_nonneg hA.le (hAt2.trans hCle)]
  have hroot : t ≤ (-Babs p w + Real.sqrt (voltDisc p w 0)) / (2 * Acoef p w) := by
    rw [le_div_iff₀ (by linarith : (0 : ℝ) < 2 * Acoef p w)]
    have hsq : (t * (2 * Acoef p w) + Babs p w) ^ 2 ≤ voltDisc p w 0 := by
      unfold voltDisc
      nlinarith [mul_nonneg hA.le
        (by linarith : (0 : ℝ) ≤ -Ccoef p w 0 - Acoef p w * t ^ 2 - Babs p w * t)]
    have hle : t * (2 * Acoef p w) + Babs p w ≤ Real.sqrt (voltDisc p w 0) :=
      Real.le_sqrt_of_sq_le hsq
    linarith
  have hvolt : t ≤ iqMaxVolt p w 0 := by
    rw [iqMaxVolt_conc p hmode]
    unfold iqMaxVoltConc
    rw [if_pos hdisc]
    exact le_trans hroot (le_max_right 0 _)
  have hiq : iqMaxAt p w 0 Pin = t := by
    unfold iqMaxAt
    rw [hpow]
    show min (min (iqMaxCurrent p 0) (iqMaxVolt p w 0)) t = t
    apply min_eq_right
    apply le_min
    · rw [hcur]
      exact hI
    · exact hvolt
  have hsample : ∀ k : ℕ, idSample p k = 0 := by
    intro k
    unfold idSample
    rw [hfw]
    ring
  have hbest : bestTm p w Pin = p.Kt * t := by
    unfold bestTm
    have hmap : (List.range 41).map (fun k => TmAt p w (idSample p k) Pin)
        = List.replicate 41 (p.Kt * t) := by
      apply List.eq_replicate_iff.mpr
      refine ⟨by simp, ?_⟩
      intro b hb
      obtain ⟨k, _, rfl⟩ := List.mem_map.mp hb
      rw [hsample k]
      unfold TmAt
      rw [hiq]
    rw [hmap, show (41 : ℕ) = 40 + 1 from rfl, foldl_max_replicate]
    exact max_eq_right (mul_nonneg hK.le ht0)
  have hTm : TmFinal p w Pin = p.Kt * t := by
    unfold TmFinal TmMax
    rw [hbest]
    exact min_eq_left (mul_le_mul_of_nonneg_left hI hK.le)
  have hquad0 : 3 * Rphase p * t ^ 2 + (p.Kt * w) * t = Pin :=
    powerRoot_quadratic p w Pin hR hP.le
  have hKne : p.Kt ≠ 0 := ne_of_gt hK
  have hq : kcu p * (p.Kt * t) ^ 2 + w * (p.Kt * t) = Pin := by
    calc kcu p * (p.Kt * t) ^ 2 + w * (p.Kt * t)
        = 3 * Rphase p * t ^ 2 + (p.Kt * w) * t := by
          unfold kcu
          field_simp
          ring
      _ = Pin := hquad0
  have hkcu : 0 < kcu p := div_pos (by linarith) (mul_pos hK hK)
  have hkne : kcu p ≠ 0 := ne_of_gt hkcu
  have hrad2 : 0 ≤ w * w + 4 * kcu p * Pin := by
    nlinarith [mul_self_nonneg w, mul_pos hkcu hP]
  have hS2 : Real.sqrt (w * w + 4 * kcu p * Pin) ^ 2 = w * w + 4 * kcu p * Pin :=
    Real.sq_sqrt hrad2
  have hs0 : 0 ≤ simpleTm p w Pin := by
    unfold simpleTm
    apply div_nonneg _ (by linarith)
    have hle : w ≤ Real.sqrt (w * w + 4 * kcu p * Pin) :=
      Real.le_sqrt_of_sq_le (by nlinarith [mul_pos hkcu hP])
    linarith
  have hq2 : kcu p * simpleTm p w Pin ^ 2 + w * simpleTm p w Pin = Pin := by
    have hinst := quad_simple_root (kcu p) w Pin hkcu hP.le
    unfold simpleTm
    exact hinst
  have huniq : p.Kt * t = simpleTm p w Pin :=
    pos_root_unique (kcu p) w Pin (p.Kt * t) (simpleTm p w Pin) hkcu hw
      (mul_nonneg hK.le ht0) hs0 hq hq2
  constructor
  · rw [hTm]
    exact hq
  · rw [hTm]
    exact huniq

/-- Concrete snapshot for exercising claim C2: `Kt = 1`, per-phase
`R = 1/3` (via `Rll = 2/9`, DELTA), `Vmax² = 3` (via `util = 1`,
`Vbus = 3`), `Imax = 2`, no field weakening, motoring mode. -/
noncomputable def pC2 : Params :=
  { defaultParams with
    Kt := 1, Rll := 2 / 9, util := 1, Vbus := 3, Imax := 2, mode := Mode.CONC }

lemma Rphase_pC2 : Rphase pC2 = 1 / 3 := by
  norm_num [Rphase, RphaseBase, pC2, defaultParams]

lemma sqrt_four : Real.sqrt 4 = 2 := by
  rw [show (4 : ℝ) = 2 ^ 2 by norm_num]
  exact Real.sqrt_sq (by norm_num)

lemma powerRoot_pC2 : powerRoot pC2 0 1 = 1 := by
  unfold powerRoot
  rw [show pC2.Kt * 0 * (pC2.Kt * 0) + 12 * Rphase pC2 * 1 = (4 : ℝ) from by
    rw [Rphase_pC2]; norm_num]
  rw [sqrt_four, Rphase_pC2]
  norm_num [pC2, defaultParams]

lemma VphaseMax_pC2_sq : VphaseMax pC2 ^ 2 = 3 := by
  unfold VphaseMax
  rw [div_pow, Real.sq_sqrt (by norm_num : (0 : ℝ) ≤ 3)]
  norm_num [pC2, defaultParams]

/-- Witness for claim C2 at `pC2`, `ω_m = 0`, `P = 1 W`: both conclusions
obtained from the theorem with every hypothesis discharged concretely. -/
theorem claim_C2_witness :
    kcu pC2 * TmFinal pC2 0 1 ^ 2 + 0 * TmFinal pC2 0 1 = 1 ∧
    TmFinal pC2 0 1 = simpleTm pC2 0 1 :=
  claim_C2 pC2 0 1 rfl rfl
    (by rw [Rphase_pC2]; norm_num)
    (by norm_num [pC2, defaultParams])
    le_rfl
    one_pos
    (by rw [powerRoot_pC2]; norm_num [pC2, defaultParams])
    (by
      rw [powerRoot_pC2, VphaseMax_pC2_sq]
      have hA2 : Acoef pC2 0 = 1 / 9 := by
        unfold Acoef
        rw [Rphase_pC2]
        norm_num
      have hB2 : Babs pC2 0 = 0 := by
        simp [Babs]
      rw [hA2, hB2]
      norm_num [pC2, defaultParams])

end PowerApp
